import Mathlib

/-!
A shallow embedding of src/robust_extract.js.

Strings are modelled by Lean's String (a structure over List Char); JavaScript
string lengths are modelled as character counts (all inputs of interest are
ASCII, where the two notions agree).  The filesystem is modelled as a partial
map from paths to file contents.  Asynchronous effects (semaphore waits,
timers) are modelled by an explicit event parameter per write attempt and, for
the semaphore itself, by a small-step transition system whose atomic steps are
exactly the bodies of Semaphore.acquire and Semaphore.release (which contain
no await and therefore run atomically on the single JS thread).
-/

namespace RobustExtract

/-- Configuration constant MAX_CONCURRENT_WRITES (robust_extract.js line 11). -/
def MAX_CONCURRENT_WRITES : Nat := 5

/-- Configuration constant MAX_FILE_SIZE, 1 MiB (robust_extract.js line 13). -/
def MAX_FILE_SIZE : Nat := 1024 * 1024

/-- Configuration constant WRITE_TIMEOUT in milliseconds (robust_extract.js line 14). -/
def WRITE_TIMEOUT : Nat := 10000

/-! ## cleanPath (robust_extract.js lines 19-33) -/

/-- The ten characters of the literal lead that the regex matches
at the start of the string in line 21. -/
def webpackLead : List Char := ['w', 'e', 'b', 'p', 'a', 'c', 'k', ':', '/', '/']

/-- Line 21: strip one leading occurrence of the webpack scheme
(the regex is anchored at the start and is not global). -/
def stripWebpack (l : List Char) : List Char :=
  if l.take 10 = webpackLead then l.drop 10 else l

/-- Boolean test: does the character list start with the webpack scheme lead? -/
def hasWebpackLead (l : List Char) : Bool :=
  decide (l.take 10 = webpackLead)

/-- Line 22: the anchored regex of an optional dot followed by a slash strips
one leading "./" or one leading "/" (greedy optional dot, with backtracking:
"./x" loses two characters, "/x" loses one, anything else is unchanged). -/
def stripDotSlash (l : List Char) : List Char :=
  if l.take 2 = ['.', '/'] then l.drop 2
  else if l.take 1 = ['/'] then l.drop 1
  else l

/-- Boolean test: does the character list start with "./" or "/"? -/
def hasDotSlashLead (l : List Char) : Bool :=
  decide (l.take 2 = ['.', '/']) || decide (l.take 1 = ['/'])

/-- JavaScript line terminators, which the dot of a regex does not match. -/
def isLineTerm (c : Char) : Bool :=
  c == '\n' || c == '\r' || c == '\u2028' || c == '\u2029'

/-- Line 23: the non-global regex of a question mark followed by dot-star and
the end anchor removes everything from the leftmost question mark whose
suffix contains no line terminator (the dot does not match line terminators
and the end anchor, without the multiline flag, only matches at the end). -/
def stripQuery : List Char → List Char
  | [] => []
  | c :: cs =>
      if c == '?' && cs.all (fun d => !isLineTerm d) then []
      else c :: stripQuery cs

/-- Line 24: the global replace of each backslash by a forward slash. -/
def backslashToSlash (c : Char) : Char :=
  if c = '\\' then '/' else c

/-- The character class of line 30: < > : " | ? * . -/
def forbidden (c : Char) : Bool :=
  c == '<' || c == '>' || c == ':' || c == '"' || c == '|' || c == '?' || c == '*'

/-- Line 30: the global replace of each forbidden character by an underscore. -/
def sanitizeChar (c : Char) : Char :=
  if forbidden c then '_' else c

/-- Lines 21-24 of cleanPath: the three anchored strips followed by the
backslash normalization. -/
def cleanCore (l : List Char) : List Char :=
  (stripQuery (stripDotSlash (stripWebpack l))).map backslashToSlash

/-- Lines 26-27 of cleanPath: append "index.js" after a trailing slash,
then append ".js" when no dot occurs anywhere. -/
def cleanTail (l : List Char) : List Char :=
  let s5 := if l.getLast? = some '/' then l ++ ("index.js".data) else l
  if '.' ∈ s5 then s5 else s5 ++ (".js".data)

/-- The whole body of cleanPath on character lists (lines 20-32). -/
def cleanList (l : List Char) : List Char :=
  (cleanTail (cleanCore l)).map sanitizeChar

/-- cleanPath (robust_extract.js lines 19-33). -/
def cleanPath (s : String) : String :=
  String.mk (cleanList s.data)

/-! ## Filesystem model and writeFileWithTimeout (lines 66-98) -/

/-- The filesystem: a partial map from absolute paths to file contents. -/
abbrev FS := String → Option String

/-- The empty filesystem. -/
def emptyFS : FS := fun _ => none

/-- Extend the filesystem with one file. -/
def fsInsert (fs : FS) (p v : String) : FS :=
  fun q => if q = p then some v else fs q

/-- The asynchronous environment of one call to writeFileWithTimeout:
either every awaited step completes before the 10 s timer fires (ok),
or the timer fires first (timeout), or some filesystem call rejects
(ioError). -/
inductive WriteEvent : Type
  | ok : WriteEvent
  | timeout : WriteEvent
  | ioError : WriteEvent
deriving DecidableEq

/-- writeFileWithTimeout (lines 66-98).  The access check of lines 73-78 runs
before fs.writeFile, so an existing path is never overwritten and yields the
return value false (line 75).  On a fresh path the write succeeds and yields
true (line 81).  When the timer of lines 88-90 fires first, Promise.race
rejects, the catch of lines 94-97 returns false, while the abandoned inner
promise keeps running and (absent an I/O error) still performs the write; no
distinct timeout value is returned.  An I/O rejection also lands in the catch
and returns false with no file created. -/
def writeFileWithTimeout (fs : FS) (filepath content : String) (ev : WriteEvent) :
    Bool × FS :=
  if (fs filepath).isSome then (false, fs)
  else
    match ev with
    | WriteEvent.ok => (true, fsInsert fs filepath content)
    | WriteEvent.timeout => (false, fsInsert fs filepath content)
    | WriteEvent.ioError => (false, fs)

/-! ## processMapFile (lines 100-192) -/

/-- A JSON value sitting in the sourcesContent array: a string, null, or any
other JSON value (number, boolean, object, array). -/
inductive JVal : Type
  | jstr : String → JVal
  | jnull : JVal
  | jother : JVal
deriving DecidableEq

/-- The guard of line 149: content is falsy or not a string.  undefined, null
and every non-string are caught by the type test or by falsiness; the empty
string is a string but falsy, so it is also caught. -/
def noContent : Option JVal → Bool
  | some (JVal.jstr s) => decide (s.length = 0)
  | _ => true

/-- A pair whose content is absent or not a string (the wording of the spec:
this does not count a present empty string). -/
def absentOrNonString : Option JVal → Bool
  | some (JVal.jstr _) => false
  | _ => true

/-- A pair whose content is a string longer than MAX_FILE_SIZE
(the guard of line 155, reached only by truthy strings). -/
def tooLargePair : Option JVal → Bool
  | some (JVal.jstr s) => decide (MAX_FILE_SIZE < s.length)
  | _ => false

/-- The per-map-file counters of lines 138-140. -/
structure Counters where
  processed : Nat
  written : Nat
  skipped : Nat
deriving DecidableEq

/-- path.join modelled as slash-joining (no dot-segment normalization; none of
the verified properties depends on normalization). -/
def joinPath (a b : String) : String := a ++ "/" ++ b

/-- path.basename without extension handling: the part after the last slash. -/
def baseNameOf (s : String) : String :=
  String.mk ((s.data.reverse.takeWhile (fun c => decide (c ≠ '/'))).reverse)

/-- Remove a trailing ".js.map" (7 characters) when it is a proper suffix,
as path.basename(mapFile, extension) does. -/
def stripMapExt (l : List Char) : List Char :=
  if 7 < l.length ∧ l.drop (l.length - 7) = (".js.map".data) then
    l.take (l.length - 7)
  else l

/-- Line 135: the per-map-file output subdirectory under src-recovered
(the working-directory component of OUTDIR is left implicit). -/
def chunkDirOf (mapFile : String) : String :=
  joinPath "src-recovered" (String.mk (stripMapExt (baseNameOf mapFile).data))

/-- One iteration of the loop of lines 145-185 on one source/content pair:
the falsy-or-non-string guard (line 149), the size guard (line 155), then the
write (lines 162-170) with the written counter bumped only on a true return;
processed is bumped on every path (lines 150, 158, 172). -/
def pairStep (dir : String) (ev : WriteEvent) (st : Counters × FS)
    (pr : String × Option JVal) : Counters × FS :=
  match pr.2 with
  | some (JVal.jstr s) =>
      if s.length = 0 then
        ({ st.1 with processed := st.1.processed + 1 }, st.2)
      else if MAX_FILE_SIZE < s.length then
        ({ st.1 with processed := st.1.processed + 1,
                     skipped := st.1.skipped + 1 }, st.2)
      else
        let r := writeFileWithTimeout st.2 (joinPath dir (cleanPath pr.1)) s ev
        ({ st.1 with processed := st.1.processed + 1,
                     written := st.1.written + (if r.1 then 1 else 0) }, r.2)
  | _ => ({ st.1 with processed := st.1.processed + 1 }, st.2)

/-- The loop of lines 145-185, indexed so that the i-th attempt sees the
asynchronous event evs i.  The writes are awaited one by one, so the
filesystem threads sequentially through the iterations. -/
def runPairs (dir : String) (evs : Nat → WriteEvent) :
    Nat → Counters × FS → List (String × Option JVal) → Counters × FS
  | _, st, [] => st
  | i, st, pr :: rest => runPairs dir evs (i + 1) (pairStep dir (evs i) st pr) rest

/-- The aligned pairing of sources[i] with sourcesContent[i] (lines 146-147):
indexing past the end of sourcesContent yields undefined, modelled as none. -/
def zipPad : List String → List JVal → List (String × Option JVal)
  | [], _ => []
  | s :: ss, [] => (s, none) :: zipPad ss []
  | s :: ss, c :: cs => (s, some c) :: zipPad ss cs

/-- Number of pairs taking the falsy-or-non-string branch of line 149. -/
def countNoContent (prs : List (String × Option JVal)) : Nat :=
  prs.countP (fun pr => noContent pr.2)

/-- Number of pairs whose content is absent or not a string
(the quantity named by the spec; a present empty string is not counted). -/
def countAbsentOrNonString (prs : List (String × Option JVal)) : Nat :=
  prs.countP (fun pr => absentOrNonString pr.2)

/-- Number of pairs taking the oversized branch of lines 155-160. -/
def countTooLarge (prs : List (String × Option JVal)) : Nat :=
  prs.countP (fun pr => tooLargePair pr.2)

/-- Number of write attempts in the loop that return false (exists-skip,
timeout or I/O error); it follows the same recursion and filesystem
threading as runPairs. -/
def failCount (dir : String) (evs : Nat → WriteEvent) :
    Nat → FS → List (String × Option JVal) → Nat
  | _, _, [] => 0
  | i, fs, pr :: rest =>
      match pr.2 with
      | some (JVal.jstr s) =>
          if s.length = 0 then failCount dir evs (i + 1) fs rest
          else if MAX_FILE_SIZE < s.length then failCount dir evs (i + 1) fs rest
          else
            let r := writeFileWithTimeout fs (joinPath dir (cleanPath pr.1)) s (evs i)
            (if r.1 then 0 else 1) + failCount dir evs (i + 1) r.2 rest
      | _ => failCount dir evs (i + 1) fs rest

/-- The paths handed to writeFileWithTimeout by the loop: one for each pair
with truthy string content within the size bound. -/
def attemptPaths (dir : String) (prs : List (String × Option JVal)) : List String :=
  prs.filterMap (fun pr =>
    match pr.2 with
    | some (JVal.jstr s) =>
        if s.length = 0 then none
        else if MAX_FILE_SIZE < s.length then none
        else some (joinPath dir (cleanPath pr.1))
    | _ => none)

/-- The input of one processMapFile call after the read of lines 107-112:
either the read rejected (I/O error or the 30 s read timer), or a raw text of
a given length whose JSON.parse either fails (none) or yields the
destructured sources and sourcesContent fields of line 128 (absent fields
already defaulted to empty arrays; non-string members of sources are outside
the scope of this model). -/
inductive MapInput : Type
  | readErr : MapInput
  | got : Nat → Option (List String × List JVal) → MapInput

/-- What one processMapFile call amounts to: one of the early aborts of
lines 112-133, or completion of the loop with final counters. -/
inductive ProcOutcome : Type
  | readError : ProcOutcome
  | tooLargeMap : ProcOutcome
  | parseError : ProcOutcome
  | noSources : ProcOutcome
  | completed : Counters → ProcOutcome
deriving DecidableEq

/-- processMapFile (lines 100-192).  Every failure is caught: the outer
try/catch of lines 103-191 turns a read rejection into a logged return, the
size guard of line 115 returns early, the inner try/catch of lines 120-126
turns a JSON.parse exception into a logged return, and line 130 returns when
sources is empty.  In all of these cases no write has happened and the
filesystem is unchanged. -/
def processMapFile (fs : FS) (mapFile : String) (input : MapInput)
    (evs : Nat → WriteEvent) : ProcOutcome × FS :=
  match input with
  | MapInput.readErr => (ProcOutcome.readError, fs)
  | MapInput.got size parsed =>
      if 50 * 1024 * 1024 < size then (ProcOutcome.tooLargeMap, fs)
      else
        match parsed with
        | none => (ProcOutcome.parseError, fs)
        | some (sources, contents) =>
            if sources.length = 0 then (ProcOutcome.noSources, fs)
            else
              let r := runPairs (chunkDirOf mapFile) evs 0
                (⟨0, 0, 0⟩, fs) (zipPad sources contents)
              (ProcOutcome.completed r.1, r.2)

/-- The driver loop of lines 270-278: map files are processed strictly one at
a time, each against the filesystem left by its predecessor. -/
def runAll (fs : FS) :
    List (String × MapInput × (Nat → WriteEvent)) → List ProcOutcome × FS
  | [] => ([], fs)
  | (m, inp, ev) :: rest =>
      let r := processMapFile fs m inp ev
      let rr := runAll r.2 rest
      (r.1 :: rr.1, rr.2)

/-- The event environment in which no write times out or errors. -/
def evOk : Nat → WriteEvent := fun _ => WriteEvent.ok

/-- A concrete string one character longer than MAX_FILE_SIZE. -/
def bigStr : String := String.mk (List.replicate (MAX_FILE_SIZE + 1) 'a')

/-! ## The Semaphore class (lines 36-62) as a transition system

Each writer process is the body of writeFileWithTimeout's inner promise:
acquire, then (in a finally) exactly one release.  acquire and release contain
no await, so each runs atomically on the single JS thread; the interleaving
of whole acquire/release bodies is the only nondeterminism. -/

/-- The phase of one writer with respect to the semaphore: not yet arrived;
parked in the queue (line 49); holding a slot (line 46 or lines 57-59);
finished (after its release). -/
inductive WStatus : Type
  | idle : WStatus
  | queued : WStatus
  | holding : WStatus
  | done : WStatus
deriving DecidableEq

/-- The shared state: the semaphore fields max, current and queue
(lines 37-41) together with the phase of each writer.  current is an integer,
as in JavaScript; that it stays within 0..max is proved, not assumed. -/
structure SemSys where
  max : Nat
  current : Int
  queue : List Nat
  ws : List WStatus

/-- Number of writers currently holding a slot. -/
def countHolding (l : List WStatus) : Nat :=
  l.countP (fun st => decide (st = WStatus.holding))

/-- The atomic steps.  acqFast and acqWait are the two arms of acquire
(lines 43-52): below the ceiling the caller increments current and proceeds;
at the ceiling its resolver is pushed onto the queue.  relLast and relWake are
release (lines 54-61): current is decremented, and when the queue is nonempty
it is re-incremented and the head waiter's resolver is called, which resumes
that waiter as the new holder. -/
inductive SemStep : SemSys → SemSys → Prop
  | acqFast (s : SemSys) (w : Nat)
      (hw : s.ws[w]? = some WStatus.idle)
      (hlt : s.current < (s.max : Int)) :
      SemStep s { s with current := s.current + 1, ws := s.ws.set w WStatus.holding }
  | acqWait (s : SemSys) (w : Nat)
      (hw : s.ws[w]? = some WStatus.idle)
      (hge : ¬ s.current < (s.max : Int)) :
      SemStep s { s with queue := s.queue ++ [w], ws := s.ws.set w WStatus.queued }
  | relLast (s : SemSys) (w : Nat)
      (hw : s.ws[w]? = some WStatus.holding)
      (hq : s.queue = []) :
      SemStep s { s with current := s.current - 1, ws := s.ws.set w WStatus.done }
  | relWake (s : SemSys) (w v : Nat) (q' : List Nat)
      (hw : s.ws[w]? = some WStatus.holding)
      (hq : s.queue = v :: q') :
      SemStep s { s with current := s.current - 1 + 1, queue := q', ws := (s.ws.set w WStatus.done).set v WStatus.holding }

/-- The initial state: a fresh Semaphore(max) (line 64 passes
MAX_CONCURRENT_WRITES) and n writers yet to arrive. -/
def initSys (max n : Nat) : SemSys :=
  ⟨max, 0, [], List.replicate n WStatus.idle⟩

/-- States reachable from some initial state by the atomic steps. -/
inductive SemReach : SemSys → Prop
  | init (max n : Nat) : SemReach (initSys max n)
  | step {s t : SemSys} : SemReach s → SemStep s t → SemReach t

/-- The inductive invariant of the semaphore system. -/
def SemInv (s : SemSys) : Prop :=
  s.current = (countHolding s.ws : Int) ∧
  s.current ≤ (s.max : Int) ∧
  (∀ v ∈ s.queue, s.ws[v]? = some WStatus.queued) ∧
  s.queue.Nodup ∧
  (s.queue ≠ [] → s.current = (s.max : Int))

/-! ## Theorems -/

/-- C4: the path sanitizer applied to "webpack:///./src/components/Header.jsx?1234"
returns "./src/components/Header.jsx", not "src/components/Header.jsx" as the claim
(and the repository README) state: stripping the webpack scheme leaves "/./...",
the anchored optional-dot-slash regex then removes only the first "/", and the
surviving "./" is never removed. -/
theorem c4_cleanPath_eval :
    cleanPath "webpack:///./src/components/Header.jsx?1234" = "./src/components/Header.jsx" ∧
    cleanPath "webpack:///./src/components/Header.jsx?1234" ≠ "src/components/Header.jsx" := by
  exact ⟨by decide, by decide⟩

/-- C5 counterexample: the path sanitizer applied to "webpack:///./README" does not
return "README.js". -/
theorem c5_counterexample :
    cleanPath "webpack:///./README" ≠ "README.js" := by decide

/-- C5 amended: the path sanitizer applied to "webpack:///./README" returns
"./README"; the surviving "./" contributes a dot, so the no-dot rule does not fire
and ".js" is not appended. -/
theorem c5_amended_eval :
    cleanPath "webpack:///./README" = "./README" ∧ '.' ∈ ("./README".data) := by
  exact ⟨by decide, by decide⟩

/-- C10: a pair whose content is the empty string takes the falsy branch: the
iteration counts it as processed, does not pass it to the writer, creates no
file, and leaves written and skipped unchanged. -/
theorem c10_emptyContent (dir : String) (ev : WriteEvent) (cnt : Counters) (fs : FS)
    (src : String) :
    pairStep dir ev (cnt, fs) (src, some (JVal.jstr "")) =
      ({ cnt with processed := cnt.processed + 1 }, fs) := rfl

/-- C6: a pair whose string content is longer than MAX_FILE_SIZE is counted as
processed and skipped, no write is attempted (the filesystem is returned
unchanged), and this holds for every asynchronous event, hence regardless of
concurrency. -/
theorem c6_tooLarge_skipped (dir : String) (ev : WriteEvent) (cnt : Counters) (fs : FS)
    (src s : String) (h : MAX_FILE_SIZE < s.length) :
    pairStep dir ev (cnt, fs) (src, some (JVal.jstr s)) =
      ({ cnt with processed := cnt.processed + 1, skipped := cnt.skipped + 1 }, fs) := by
  have h0 : ¬ s.length = 0 := fun h' => Nat.not_lt_zero _ (h' ▸ h)
  simp [pairStep, h0, h]

/-- C6 witness: a concrete string of MAX_FILE_SIZE + 1 characters is skipped as
too large without touching the filesystem. -/
theorem c6_tooLarge_skipped_witness :
    pairStep "d" WriteEvent.ok (⟨0, 0, 0⟩, emptyFS) ("s", some (JVal.jstr bigStr)) =
      (⟨1, 0, 1⟩, emptyFS) :=
  c6_tooLarge_skipped "d" WriteEvent.ok ⟨0, 0, 0⟩ emptyFS "s" bigStr
    (by simp [bigStr, String.length, Nat.lt_succ_self])

/-- C3 counterexample: the timeout outcome is not distinguishable from the
already-exists skip: on a fresh path with an expired deadline the call returns
false, and on an existing path it also returns false. -/
theorem c3_counterexample :
    (writeFileWithTimeout emptyFS "a" "x" WriteEvent.timeout).1 = false ∧
    (writeFileWithTimeout (fsInsert emptyFS "a" "x") "a" "x" WriteEvent.ok).1 = false := by
  exact ⟨by decide, by decide⟩

/-- C3 amended: when the wall-clock deadline expires the attempt is abandoned and
the call returns false — the same value returned for the already-exists skip, so
no distinct timeout outcome exists — while the abandoned underlying write still
completes on a fresh path. -/
theorem c3_timeout_amended (fs : FS) (p c : String) (h : fs p = none) :
    writeFileWithTimeout fs p c WriteEvent.timeout = (false, fsInsert fs p c) ∧
    (writeFileWithTimeout fs p c WriteEvent.timeout).1 =
      (writeFileWithTimeout (fsInsert fs p c) p c WriteEvent.ok).1 := by
  have h1 : (fs p).isSome = false := by rw [h]; rfl
  have h2 : ((fsInsert fs p c) p).isSome = true := by simp [fsInsert]
  refine ⟨?_, ?_⟩
  · simp [writeFileWithTimeout, h1]
  · simp [writeFileWithTimeout, h1, h2]

/-- C3 amended, witness at a concrete fresh path on the empty filesystem. -/
theorem c3_timeout_amended_witness :
    writeFileWithTimeout emptyFS "a" "x" WriteEvent.timeout = (false, fsInsert emptyFS "a" "x") ∧
    (writeFileWithTimeout emptyFS "a" "x" WriteEvent.timeout).1 =
      (writeFileWithTimeout (fsInsert emptyFS "a" "x") "a" "x" WriteEvent.ok).1 :=
  c3_timeout_amended emptyFS "a" "x" rfl

/-- C1 counterexample: a map file with one source whose content is the empty
string completes with processed = 1, written = 0, skipped = 0, while the number
of pairs with absent or non-string content is 0, so the claimed identity
processed = written + skipped + count fails (1 is not 0 + 0 + 0). -/
theorem c1_counterexample :
    (processMapFile emptyFS "m.js.map"
        (MapInput.got 10 (some (["a.js"], [JVal.jstr ""]))) evOk).1
      = ProcOutcome.completed ⟨1, 0, 0⟩ ∧
    countAbsentOrNonString (zipPad ["a.js"] [JVal.jstr ""]) = 0 ∧
    (1 : Nat) ≠ 0 + 0 + 0 := by
  exact ⟨by decide, by decide, by decide⟩

/-- The aligned pairing has exactly one pair per declared source. -/
theorem zipPad_length (sources : List String) (contents : List JVal) :
    (zipPad sources contents).length = sources.length := by
  induction sources generalizing contents with
  | nil => simp [zipPad]
  | cons s ss ih =>
      cases contents with
      | nil => simp [zipPad, ih]
      | cons c cs => simp [zipPad, ih]

/-- Loop accounting: processed grows by the number of pairs, skipped by the
number of oversized pairs, and each pair is either falsy, oversized, a
successful write, or a failed write attempt. -/
theorem runPairs_counts (dir : String) (evs : Nat → WriteEvent) :
    ∀ (prs : List (String × Option JVal)) (i : Nat) (cnt : Counters) (fs : FS),
      (runPairs dir evs i (cnt, fs) prs).1.processed = cnt.processed + prs.length ∧
      (runPairs dir evs i (cnt, fs) prs).1.skipped = cnt.skipped + countTooLarge prs ∧
      (runPairs dir evs i (cnt, fs) prs).1.written + countNoContent prs +
          countTooLarge prs + failCount dir evs i fs prs
        = cnt.written + prs.length := by
  intro prs
  induction prs with
  | nil =>
      intro i cnt fs
      simp [runPairs, countTooLarge, countNoContent, failCount]
  | cons pr rest ih =>
      intro i cnt fs
      obtain ⟨src, content⟩ := pr
      cases content with
      | none =>
          have h := ih (i + 1) ⟨cnt.processed + 1, cnt.written, cnt.skipped⟩ fs
          simp [runPairs, pairStep, countNoContent, countTooLarge, failCount,
            noContent, tooLargePair, List.countP_cons] at h ⊢
          omega
      | some c =>
          cases c with
          | jnull =>
              have h := ih (i + 1) ⟨cnt.processed + 1, cnt.written, cnt.skipped⟩ fs
              simp [runPairs, pairStep, countNoContent, countTooLarge, failCount,
                noContent, tooLargePair, List.countP_cons] at h ⊢
              omega
          | jother =>
              have h := ih (i + 1) ⟨cnt.processed + 1, cnt.written, cnt.skipped⟩ fs
              simp [runPairs, pairStep, countNoContent, countTooLarge, failCount,
                noContent, tooLargePair, List.countP_cons] at h ⊢
              omega
          | jstr s =>
              by_cases h0 : s.length = 0
              · have h := ih (i + 1) ⟨cnt.processed + 1, cnt.written, cnt.skipped⟩ fs
                simp [runPairs, pairStep, countNoContent, countTooLarge, failCount,
                  noContent, tooLargePair, List.countP_cons, h0, Nat.not_lt_zero] at h ⊢
                omega
              · by_cases h1 : MAX_FILE_SIZE < s.length
                · have h := ih (i + 1) ⟨cnt.processed + 1, cnt.written, cnt.skipped + 1⟩ fs
                  simp [runPairs, pairStep, countNoContent, countTooLarge, failCount,
                    noContent, tooLargePair, List.countP_cons, h0, h1] at h ⊢
                  omega
                · have h := ih (i + 1)
                    ⟨cnt.processed + 1,
                      cnt.written + (if (writeFileWithTimeout fs
                        (joinPath dir (cleanPath src)) s (evs i)).1 then 1 else 0),
                      cnt.skipped⟩
                    (writeFileWithTimeout fs (joinPath dir (cleanPath src)) s (evs i)).2
                  simp [runPairs, pairStep, countNoContent, countTooLarge, failCount,
                    noContent, tooLargePair, List.countP_cons, h0, h1] at h ⊢
                  cases hr : (writeFileWithTimeout fs (joinPath dir (cleanPath src)) s
                      (evs i)).1 <;>
                    simp [hr] at h ⊢ <;> omega

/-- C1 amended: for a map file that is read, parsed and iterated to completion,
the final counters satisfy processed = written + skipped + (number of pairs with
falsy or non-string content) + (number of write attempts that returned
not-written, i.e. exists-skips, timeouts and I/O errors), and processed equals
(hence is at most) the number of declared sources. -/
theorem c1_amended_counts (fs : FS) (mapFile : String) (sources : List String)
    (contents : List JVal) (evs : Nat → WriteEvent) (size : Nat)
    (h1 : ¬ 50 * 1024 * 1024 < size) (h2 : ¬ sources.length = 0) :
    (processMapFile fs mapFile (MapInput.got size (some (sources, contents))) evs).1
      = ProcOutcome.completed
          (runPairs (chunkDirOf mapFile) evs 0 (⟨0, 0, 0⟩, fs) (zipPad sources contents)).1 ∧
    (runPairs (chunkDirOf mapFile) evs 0 (⟨0, 0, 0⟩, fs) (zipPad sources contents)).1.processed
      = (runPairs (chunkDirOf mapFile) evs 0 (⟨0, 0, 0⟩, fs) (zipPad sources contents)).1.written
        + (runPairs (chunkDirOf mapFile) evs 0 (⟨0, 0, 0⟩, fs) (zipPad sources contents)).1.skipped
        + countNoContent (zipPad sources contents)
        + failCount (chunkDirOf mapFile) evs 0 fs (zipPad sources contents) ∧
    (runPairs (chunkDirOf mapFile) evs 0 (⟨0, 0, 0⟩, fs) (zipPad sources contents)).1.processed
      = sources.length := by
  obtain ⟨ha, hb, hw⟩ :=
    runPairs_counts (chunkDirOf mapFile) evs (zipPad sources contents) 0 ⟨0, 0, 0⟩ fs
  have hlen := zipPad_length sources contents
  simp at ha hb hw
  refine ⟨?_, ?_, ?_⟩
  · simp [processMapFile, h1, h2]
  · omega
  · omega

/-- C1 amended, witness: two sources, one real content and one null, on the
empty filesystem. -/
theorem c1_amended_counts_witness :
    (processMapFile emptyFS "m.js.map"
        (MapInput.got 10 (some (["a.js", "b.js"], [JVal.jstr "x", JVal.jnull]))) evOk).1
      = ProcOutcome.completed
          (runPairs (chunkDirOf "m.js.map") evOk 0 (⟨0, 0, 0⟩, emptyFS)
            (zipPad ["a.js", "b.js"] [JVal.jstr "x", JVal.jnull])).1 ∧
    (runPairs (chunkDirOf "m.js.map") evOk 0 (⟨0, 0, 0⟩, emptyFS)
        (zipPad ["a.js", "b.js"] [JVal.jstr "x", JVal.jnull])).1.processed
      = (runPairs (chunkDirOf "m.js.map") evOk 0 (⟨0, 0, 0⟩, emptyFS)
          (zipPad ["a.js", "b.js"] [JVal.jstr "x", JVal.jnull])).1.written
        + (runPairs (chunkDirOf "m.js.map") evOk 0 (⟨0, 0, 0⟩, emptyFS)
            (zipPad ["a.js", "b.js"] [JVal.jstr "x", JVal.jnull])).1.skipped
        + countNoContent (zipPad ["a.js", "b.js"] [JVal.jstr "x", JVal.jnull])
        + failCount (chunkDirOf "m.js.map") evOk 0 emptyFS
            (zipPad ["a.js", "b.js"] [JVal.jstr "x", JVal.jnull]) ∧
    (runPairs (chunkDirOf "m.js.map") evOk 0 (⟨0, 0, 0⟩, emptyFS)
        (zipPad ["a.js", "b.js"] [JVal.jstr "x", JVal.jnull])).1.processed
      = (["a.js", "b.js"] : List String).length :=
  c1_amended_counts emptyFS "m.js.map" ["a.js", "b.js"] [JVal.jstr "x", JVal.jnull]
    evOk 10 (by decide) (by decide)

/-- A write attempt never changes an existing binding: the existence check runs
before the write, and a fresh write only extends the map at its own fresh path. -/
theorem write_preserves (fs : FS) (p c : String) (ev : WriteEvent)
    (q v : String) (h : fs q = some v) :
    (writeFileWithTimeout fs p c ev).2 q = some v := by
  by_cases hp : (fs p).isSome
  · simp [writeFileWithTimeout, hp, h]
  · have hqp : q ≠ p := by
      intro he
      rw [← he, h] at hp
      exact hp rfl
    cases ev <;> simp [writeFileWithTimeout, hp, fsInsert, hqp, h]

/-- The loop never changes an existing binding. -/
theorem runPairs_preserves (dir : String) (evs : Nat → WriteEvent) :
    ∀ (prs : List (String × Option JVal)) (i : Nat) (st : Counters × FS) (q v : String),
      st.2 q = some v → (runPairs dir evs i st prs).2 q = some v := by
  intro prs
  induction prs with
  | nil => intro i st q v h; simpa [runPairs] using h
  | cons pr rest ih =>
      intro i st q v h
      simp only [runPairs]
      apply ih
      obtain ⟨src, content⟩ := pr
      cases content with
      | none => simpa [pairStep] using h
      | some c =>
          cases c with
          | jnull => simpa [pairStep] using h
          | jother => simpa [pairStep] using h
          | jstr s =>
              by_cases h0 : s.length = 0
              · simpa [pairStep, h0] using h
              · by_cases h1 : MAX_FILE_SIZE < s.length
                · simpa [pairStep, h0, h1] using h
                · simp only [pairStep, if_neg h0, if_neg h1]
                  exact write_preserves st.2 _ s (evs i) q v h

/-- The loop never erases a file. -/
theorem runPairs_preserves_isSome (dir : String) (evs : Nat → WriteEvent)
    (prs : List (String × Option JVal)) (i : Nat) (st : Counters × FS) (p : String)
    (h : (st.2 p).isSome) : ((runPairs dir evs i st prs).2 p).isSome := by
  obtain ⟨v, hv⟩ := Option.isSome_iff_exists.mp h
  rw [runPairs_preserves dir evs prs i st p v hv]
  rfl

/-- A write attempt without an I/O event leaves its own path present. -/
theorem write_ok_present (fs : FS) (p c : String) :
    ((writeFileWithTimeout fs p c WriteEvent.ok).2 p).isSome := by
  by_cases hp : (fs p).isSome
  · simpa [writeFileWithTimeout, hp] using hp
  · simp [writeFileWithTimeout, hp, fsInsert]

/-- After a loop in which no write errors or times out, every attempted path
is present in the resulting filesystem. -/
theorem runPairs_attempted_present (dir : String) :
    ∀ (prs : List (String × Option JVal)) (i : Nat) (st : Counters × FS) (p : String),
      p ∈ attemptPaths dir prs → ((runPairs dir evOk i st prs).2 p).isSome := by
  intro prs
  induction prs with
  | nil => intro i st p hp; simp [attemptPaths] at hp
  | cons pr rest ih =>
      intro i st p hp
      obtain ⟨src, content⟩ := pr
      cases content with
      | none =>
          simp only [attemptPaths, List.filterMap_cons] at hp
          exact ih (i + 1) _ p hp
      | some c =>
          cases c with
          | jnull =>
              simp only [attemptPaths, List.filterMap_cons] at hp
              exact ih (i + 1) _ p hp
          | jother =>
              simp only [attemptPaths, List.filterMap_cons] at hp
              exact ih (i + 1) _ p hp
          | jstr s =>
              by_cases h0 : s.length = 0
              · simp only [attemptPaths, List.filterMap_cons, if_pos h0] at hp
                exact ih (i + 1) _ p hp
              · by_cases h1 : MAX_FILE_SIZE < s.length
                · simp only [attemptPaths, List.filterMap_cons, if_neg h0, if_pos h1] at hp
                  exact ih (i + 1) _ p hp
                · simp only [attemptPaths, List.filterMap_cons, if_neg h0, if_neg h1,
                    List.mem_cons] at hp
                  rcases hp with hp | hp
                  · subst hp
                    simp only [runPairs, pairStep, if_neg h0, if_neg h1]
                    exact runPairs_preserves_isSome dir evOk rest (i + 1) _ _
                      (write_ok_present st.2 _ s)
                  · simp only [runPairs]
                    exact ih (i + 1) _ p hp

/-- Membership in the attempted paths of the tail persists when a pair is
prepended. -/
theorem attemptPaths_tail (dir : String) (pr : String × Option JVal)
    (rest : List (String × Option JVal)) (p : String)
    (hp : p ∈ attemptPaths dir rest) : p ∈ attemptPaths dir (pr :: rest) :=
  (((List.sublist_cons_self pr rest).filterMap _)).subset hp

/-- When every attempted path already exists, the loop writes nothing and
leaves the filesystem unchanged; skipped grows only by the oversized pairs. -/
theorem runPairs_all_present (dir : String) (evs : Nat → WriteEvent) :
    ∀ (prs : List (String × Option JVal)) (i : Nat) (cnt : Counters) (fs : FS),
      (∀ p ∈ attemptPaths dir prs, (fs p).isSome) →
      runPairs dir evs i (cnt, fs) prs
        = (⟨cnt.processed + prs.length, cnt.written,
            cnt.skipped + countTooLarge prs⟩, fs) := by
  intro prs
  induction prs with
  | nil =>
      intro i cnt fs _
      simp [runPairs, countTooLarge]
  | cons pr rest ih =>
      intro i cnt fs hall
      obtain ⟨src, content⟩ := pr
      have hrest : ∀ p ∈ attemptPaths dir rest, (fs p).isSome :=
        fun p hp => hall p (attemptPaths_tail dir (src, content) rest p hp)
      cases content with
      | none =>
          simp only [runPairs, pairStep]
          rw [ih (i + 1) ⟨cnt.processed + 1, cnt.written, cnt.skipped⟩ fs hrest]
          simp [countTooLarge, tooLargePair, List.countP_cons] <;> omega
      | some c =>
          cases c with
          | jnull =>
              simp only [runPairs, pairStep]
              rw [ih (i + 1) ⟨cnt.processed + 1, cnt.written, cnt.skipped⟩ fs hrest]
              simp [countTooLarge, tooLargePair, List.countP_cons] <;> omega
          | jother =>
              simp only [runPairs, pairStep]
              rw [ih (i + 1) ⟨cnt.processed + 1, cnt.written, cnt.skipped⟩ fs hrest]
              simp [countTooLarge, tooLargePair, List.countP_cons] <;> omega
          | jstr s =>
              by_cases h0 : s.length = 0
              · simp only [runPairs, pairStep, if_pos h0]
                rw [ih (i + 1) ⟨cnt.processed + 1, cnt.written, cnt.skipped⟩ fs hrest]
                simp [countTooLarge, tooLargePair, List.countP_cons, h0,
                  Nat.not_lt_zero] <;> omega
              · by_cases h1 : MAX_FILE_SIZE < s.length
                · simp only [runPairs, pairStep, if_neg h0, if_pos h1]
                  rw [ih (i + 1) ⟨cnt.processed + 1, cnt.written, cnt.skipped + 1⟩ fs hrest]
                  simp [countTooLarge, tooLargePair, List.countP_cons, h0, h1] <;> omega
                · have hhead : (fs (joinPath dir (cleanPath src))).isSome := by
                    refine hall _ ?_
                    simp [attemptPaths, List.filterMap_cons, if_neg h0, if_neg h1]
                  have hw : writeFileWithTimeout fs (joinPath dir (cleanPath src)) s (evs i)
                      = (false, fs) := by
                    simp [writeFileWithTimeout, hhead]
                  simp only [runPairs, pairStep, if_neg h0, if_neg h1, hw]
                  rw [show (⟨cnt.processed + 1,
                        cnt.written + (if (false, fs).1 = true then 1 else 0),
                        cnt.skipped⟩ : Counters)
                      = ⟨cnt.processed + 1, cnt.written, cnt.skipped⟩ from by simp]
                  rw [ih (i + 1) ⟨cnt.processed + 1, cnt.written, cnt.skipped⟩ fs hrest]
                  simp [countTooLarge, tooLargePair, List.countP_cons, h0, h1] <;> omega

/-- C2 amended: if a target path already exists, the write returns a skip
without overwriting; re-running extraction on an identical map file yields
written = 0, leaves the whole filesystem (hence the contents of every existing
file) unchanged, and counts the pre-existing paths neither as written nor as
skipped: the final skipped counter equals the number of oversized pairs only. -/
theorem c2_noClobber (fs : FS) (mapFile : String) (sources : List String)
    (contents : List JVal) (size : Nat) (q v : String)
    (h1 : ¬ 50 * 1024 * 1024 < size) (h2 : ¬ sources.length = 0)
    (hq : fs q = some v) :
    (processMapFile fs mapFile (MapInput.got size (some (sources, contents))) evOk).2 q
      = some v ∧
    (processMapFile
        (processMapFile fs mapFile (MapInput.got size (some (sources, contents))) evOk).2
        mapFile (MapInput.got size (some (sources, contents))) evOk).2
      = (processMapFile fs mapFile (MapInput.got size (some (sources, contents))) evOk).2 ∧
    (processMapFile
        (processMapFile fs mapFile (MapInput.got size (some (sources, contents))) evOk).2
        mapFile (MapInput.got size (some (sources, contents))) evOk).1
      = ProcOutcome.completed
          ⟨sources.length, 0, countTooLarge (zipPad sources contents)⟩ := by
  have hrun : ∀ g : FS,
      processMapFile g mapFile (MapInput.got size (some (sources, contents))) evOk
        = (ProcOutcome.completed
            (runPairs (chunkDirOf mapFile) evOk 0 (⟨0, 0, 0⟩, g)
              (zipPad sources contents)).1,
          (runPairs (chunkDirOf mapFile) evOk 0 (⟨0, 0, 0⟩, g)
            (zipPad sources contents)).2) := by
    intro g
    simp [processMapFile, h1, h2]
  have hfirst :
      (processMapFile fs mapFile (MapInput.got size (some (sources, contents))) evOk).2 q
        = some v := by
    rw [hrun fs]
    exact runPairs_preserves (chunkDirOf mapFile) evOk (zipPad sources contents) 0
      (⟨0, 0, 0⟩, fs) q v hq
  have hpres : ∀ p ∈ attemptPaths (chunkDirOf mapFile) (zipPad sources contents),
      (((runPairs (chunkDirOf mapFile) evOk 0 (⟨0, 0, 0⟩, fs)
          (zipPad sources contents)).2) p).isSome :=
    fun p hp' => runPairs_attempted_present (chunkDirOf mapFile) (zipPad sources contents)
      0 (⟨0, 0, 0⟩, fs) p hp'
  have hsecond := runPairs_all_present (chunkDirOf mapFile) evOk (zipPad sources contents)
    0 ⟨0, 0, 0⟩
    ((runPairs (chunkDirOf mapFile) evOk 0 (⟨0, 0, 0⟩, fs) (zipPad sources contents)).2)
    hpres
  refine ⟨hfirst, ?_, ?_⟩
  · rw [hrun fs, hrun _]
    simp only [hsecond]
  · rw [hrun fs, hrun _]
    simp only [hsecond]
    simp [zipPad_length sources contents]

/-- C2 amended, witness: a filesystem holding one pre-existing file, one map
file with one writable source, run twice. -/
theorem c2_noClobber_witness :
    (processMapFile (fsInsert emptyFS "pre" "v0") "m.js.map"
        (MapInput.got 10 (some (["a.js"], [JVal.jstr "x"]))) evOk).2 "pre" = some "v0" ∧
    (processMapFile
        (processMapFile (fsInsert emptyFS "pre" "v0") "m.js.map"
          (MapInput.got 10 (some (["a.js"], [JVal.jstr "x"]))) evOk).2
        "m.js.map" (MapInput.got 10 (some (["a.js"], [JVal.jstr "x"]))) evOk).2
      = (processMapFile (fsInsert emptyFS "pre" "v0") "m.js.map"
          (MapInput.got 10 (some (["a.js"], [JVal.jstr "x"]))) evOk).2 ∧
    (processMapFile
        (processMapFile (fsInsert emptyFS "pre" "v0") "m.js.map"
          (MapInput.got 10 (some (["a.js"], [JVal.jstr "x"]))) evOk).2
        "m.js.map" (MapInput.got 10 (some (["a.js"], [JVal.jstr "x"]))) evOk).1
      = ProcOutcome.completed
          ⟨(["a.js"] : List String).length, 0,
            countTooLarge (zipPad ["a.js"] [JVal.jstr "x"])⟩ :=
  c2_noClobber (fsInsert emptyFS "pre" "v0") "m.js.map" ["a.js"] [JVal.jstr "x"] 10
    "pre" "v0" (by decide) (by decide) (by decide)

/-- C2 counterexample: running extraction twice on an identical map file with one
previously-written path yields written = 0 on the second run, but skipped = 0 as
well, not skipped > 0 as claimed: the loop counts an already-exists skip neither
as written nor as skipped. -/
theorem c2_counterexample :
    (processMapFile emptyFS "m.js.map"
        (MapInput.got 10 (some (["a.js"], [JVal.jstr "x"]))) evOk).1
      = ProcOutcome.completed ⟨1, 1, 0⟩ ∧
    (processMapFile
        (processMapFile emptyFS "m.js.map"
          (MapInput.got 10 (some (["a.js"], [JVal.jstr "x"]))) evOk).2
        "m.js.map" (MapInput.got 10 (some (["a.js"], [JVal.jstr "x"]))) evOk).1
      = ProcOutcome.completed ⟨1, 0, 0⟩ := by
  exact ⟨by decide, by decide⟩

/-- C7: malformed JSON never escapes the boundary of processMapFile: the call
returns a parse-error outcome, performs zero writes (the filesystem is
unchanged), and the driver goes on to process the remaining map files exactly
as it would have without the malformed file. -/
theorem c7_parseError_isolated (fs : FS) (mapFile : String) (size : Nat)
    (ev : Nat → WriteEvent) (rest : List (String × MapInput × (Nat → WriteEvent)))
    (h : ¬ 50 * 1024 * 1024 < size) :
    processMapFile fs mapFile (MapInput.got size none) ev
      = (ProcOutcome.parseError, fs) ∧
    runAll fs ((mapFile, MapInput.got size none, ev) :: rest)
      = (ProcOutcome.parseError :: (runAll fs rest).1, (runAll fs rest).2) := by
  have hp : processMapFile fs mapFile (MapInput.got size none) ev
      = (ProcOutcome.parseError, fs) := by
    simp [processMapFile, h]
  exact ⟨hp, by simp [runAll, hp]⟩

/-- C7 witness: a malformed map file followed by a well-formed one. -/
theorem c7_parseError_isolated_witness :
    processMapFile emptyFS "bad.js.map" (MapInput.got 10 none) evOk
      = (ProcOutcome.parseError, emptyFS) ∧
    runAll emptyFS (("bad.js.map", MapInput.got 10 none, evOk) ::
        [("n.js.map", MapInput.got 5 (some (["a.js"], [JVal.jstr "x"])), evOk)])
      = (ProcOutcome.parseError ::
          (runAll emptyFS
            [("n.js.map", MapInput.got 5 (some (["a.js"], [JVal.jstr "x"])), evOk)]).1,
        (runAll emptyFS
          [("n.js.map", MapInput.got 5 (some (["a.js"], [JVal.jstr "x"])), evOk)]).2) :=
  c7_parseError_isolated emptyFS "bad.js.map" 10 evOk
    [("n.js.map", MapInput.got 5 (some (["a.js"], [JVal.jstr "x"])), evOk)] (by decide)

/-- A map that fixes every element of a list is the identity on it. -/
theorem map_id_of_fixes {f : Char → Char} :
    ∀ l : List Char, (∀ c ∈ l, f c = c) → l.map f = l := by
  intro l
  induction l with
  | nil => intro _; rfl
  | cons a t ih =>
      intro h
      simp only [List.map_cons]
      rw [h a (List.mem_cons_self a t), ih (fun c hc => h c (List.mem_cons_of_mem a hc))]

/-- The query strip is the identity on strings without a question mark. -/
theorem stripQuery_no_q : ∀ l : List Char, (∀ c ∈ l, c ≠ '?') → stripQuery l = l := by
  intro l
  induction l with
  | nil => intro _; rfl
  | cons a t ih =>
      intro h
      have ha : a ≠ '?' := h a (List.mem_cons_self a t)
      simp [stripQuery, ha, ih (fun c hc => h c (List.mem_cons_of_mem a hc))]

/-- The output of the final character sanitization is never a forbidden
character. -/
theorem sanitizeChar_not_forbidden (c : Char) : forbidden (sanitizeChar c) = false := by
  cases hf : forbidden c
  · simp [sanitizeChar, hf]
  · simp only [sanitizeChar, hf, if_pos]
    decide

/-- No character of a cleaned path is forbidden. -/
theorem cleanList_no_forbidden (l : List Char) :
    ∀ c ∈ cleanList l, forbidden c = false := by
  intro c hc
  simp only [cleanList, List.mem_map] at hc
  obtain ⟨a, _, rfl⟩ := hc
  exact sanitizeChar_not_forbidden a

/-- No character of a cleaned path is a question mark. -/
theorem cleanList_no_qmark (l : List Char) : ∀ c ∈ cleanList l, c ≠ '?' := by
  intro c hc he
  have hforb := cleanList_no_forbidden l c hc
  rw [he] at hforb
  exact absurd hforb (by decide)

/-- The backslash normalization never outputs a backslash. -/
theorem backslashToSlash_ne (c : Char) : backslashToSlash c ≠ '\\' := by
  by_cases h : c = '\\'
  · simp only [backslashToSlash, if_pos h]
    decide
  · simp only [backslashToSlash, if_neg h]
    exact h

/-- No character of the core-cleaned path is a backslash. -/
theorem cleanCore_no_backslash (l : List Char) : ∀ c ∈ cleanCore l, c ≠ '\\' := by
  intro c hc
  simp only [cleanCore, List.mem_map] at hc
  obtain ⟨a, _, rfl⟩ := hc
  exact backslashToSlash_ne a

/-- Every character of the suffix-appending step comes from its input or from
one of the two appended literals. -/
theorem cleanTail_mem (l : List Char) (c : Char) (hc : c ∈ cleanTail l) :
    c ∈ l ∨ c ∈ ("index.js".data) ∨ c ∈ (".js".data) := by
  simp only [cleanTail] at hc
  by_cases hP : l.getLast? = some '/'
  · simp only [if_pos hP] at hc
    by_cases hD : '.' ∈ l ++ ("index.js".data)
    · simp only [if_pos hD] at hc
      rcases List.mem_append.mp hc with h | h
      · exact Or.inl h
      · exact Or.inr (Or.inl h)
    · simp only [if_neg hD] at hc
      rcases List.mem_append.mp hc with h | h
      · rcases List.mem_append.mp h with h' | h'
        · exact Or.inl h'
        · exact Or.inr (Or.inl h')
      · exact Or.inr (Or.inr h)
  · simp only [if_neg hP] at hc
    by_cases hD : '.' ∈ l
    · simp only [if_pos hD] at hc
      exact Or.inl hc
    · simp only [if_neg hD] at hc
      rcases List.mem_append.mp hc with h | h
      · exact Or.inl h
      · exact Or.inr (Or.inr h)

/-- No character of a cleaned path is a backslash. -/
theorem cleanList_no_backslash (l : List Char) : ∀ c ∈ cleanList l, c ≠ '\\' := by
  intro c hc
  simp only [cleanList, List.mem_map] at hc
  obtain ⟨a, ha, rfl⟩ := hc
  have hane : a ≠ '\\' := by
    rcases cleanTail_mem _ a ha with h | h | h
    · exact cleanCore_no_backslash l a h
    · exact (by decide : ∀ x ∈ ("index.js".data), x ≠ '\\') a h
    · exact (by decide : ∀ x ∈ (".js".data), x ≠ '\\') a h
  by_cases hf : forbidden a = true
  · simp only [sanitizeChar, if_pos hf]
    decide
  · simp only [sanitizeChar, if_neg hf]
    exact hane

/-- The suffix-appending step always yields a string containing a dot. -/
theorem cleanTail_has_dot (l : List Char) : '.' ∈ cleanTail l := by
  simp only [cleanTail]
  by_cases hP : l.getLast? = some '/'
  · simp only [if_pos hP]
    by_cases hD : '.' ∈ l ++ ("index.js".data)
    · simpa [if_pos hD] using hD
    · simp only [if_neg hD]
      exact List.mem_append.mpr (Or.inr (by decide))
  · simp only [if_neg hP]
    by_cases hD : '.' ∈ l
    · simpa [if_pos hD] using hD
    · simp only [if_neg hD]
      exact List.mem_append.mpr (Or.inr (by decide))

/-- Every cleaned path contains a dot. -/
theorem cleanList_has_dot (l : List Char) : '.' ∈ cleanList l := by
  simp only [cleanList, List.mem_map]
  exact ⟨'.', cleanTail_has_dot (cleanCore l), by decide⟩

/-- The suffix-appending step never yields a string ending in a slash. -/
theorem cleanTail_last (l : List Char) : (cleanTail l).getLast? ≠ some '/' := by
  simp only [cleanTail]
  by_cases hP : l.getLast? = some '/'
  · simp only [if_pos hP]
    by_cases hD : '.' ∈ l ++ ("index.js".data)
    · simp only [if_pos hD]
      rw [List.getLast?_append_of_ne_nil l (by decide)]
      decide
    · simp only [if_neg hD]
      rw [List.getLast?_append_of_ne_nil (l ++ ("index.js".data)) (by decide)]
      decide
  · simp only [if_neg hP]
    by_cases hD : '.' ∈ l
    · simp only [if_pos hD]
      exact hP
    · simp only [if_neg hD]
      rw [List.getLast?_append_of_ne_nil l (by decide)]
      decide

/-- A cleaned path never ends in a slash. -/
theorem cleanList_last (l : List Char) : (cleanList l).getLast? ≠ some '/' := by
  intro he
  simp only [cleanList] at he
  rw [List.getLast?_map] at he
  rcases hm : (cleanTail (cleanCore l)).getLast? with _ | a
  · rw [hm] at he
    simp at he
  · rw [hm] at he
    simp only [Option.map_some'] at he
    have ha : sanitizeChar a = '/' := Option.some.inj he
    have haa : a = '/' := by
      by_cases hf : forbidden a = true
      · rw [sanitizeChar, if_pos hf] at ha
        exact absurd ha (by decide)
      · rw [sanitizeChar, if_neg hf] at ha
        exact ha
    exact cleanTail_last (cleanCore l) (by rw [hm, haa])

/-- The webpack strip is the identity without the webpack lead. -/
theorem stripWebpack_no_lead (l : List Char) (h : hasWebpackLead l = false) :
    stripWebpack l = l := by
  simp only [stripWebpack]
  rw [if_neg (of_decide_eq_false h)]

/-- The dot-slash strip is the identity without such a lead. -/
theorem stripDotSlash_no_lead (l : List Char) (h : hasDotSlashLead l = false) :
    stripDotSlash l = l := by
  simp only [hasDotSlashLead, Bool.or_eq_false_iff, decide_eq_false_iff_not] at h
  simp [stripDotSlash, h.1, h.2]

/-- Second pass of the cleaning pipeline: on a cleaned path without a leading
webpack scheme, "./" or "/", the whole pipeline is the identity. -/
theorem cleanList_idem (l : List Char)
    (h1 : hasWebpackLead (cleanList l) = false)
    (h2 : hasDotSlashLead (cleanList l) = false) :
    cleanList (cleanList l) = cleanList l := by
  have hq := cleanList_no_qmark l
  have hbs := cleanList_no_backslash l
  have hforb := cleanList_no_forbidden l
  have hdot := cleanList_has_dot l
  have hlast := cleanList_last l
  have hcore : cleanCore (cleanList l) = cleanList l := by
    unfold cleanCore
    rw [stripWebpack_no_lead _ h1, stripDotSlash_no_lead _ h2, stripQuery_no_q _ hq]
    apply map_id_of_fixes
    intro c hc
    simp only [backslashToSlash]
    rw [if_neg (hbs c hc)]
  have htail : cleanTail (cleanList l) = cleanList l := by
    simp only [cleanTail]
    rw [if_neg hlast, if_pos hdot]
  calc cleanList (cleanList l)
      = (cleanTail (cleanCore (cleanList l))).map sanitizeChar := rfl
    _ = (cleanTail (cleanList l)).map sanitizeChar := by rw [hcore]
    _ = (cleanList l).map sanitizeChar := by rw [htail]
    _ = cleanList l := map_id_of_fixes _ (fun c hc => by
          have := hforb c hc
          simp [sanitizeChar, this])

/-- C9: the path sanitizer is idempotent on its own output: whenever the first
pass leaves no removable lead (no webpack scheme, no leading "./" or "/"; a
query suffix, a backslash, a trailing slash or a dotless result can never
survive a first pass), a second pass returns its input unchanged. -/
theorem c9_cleanPath_idem (p : String)
    (h1 : hasWebpackLead (cleanPath p).data = false)
    (h2 : hasDotSlashLead (cleanPath p).data = false) :
    cleanPath (cleanPath p) = cleanPath p := by
  have h1' : hasWebpackLead (cleanList p.data) = false := h1
  have h2' : hasDotSlashLead (cleanList p.data) = false := h2
  have h := cleanList_idem p.data h1' h2'
  show String.mk (cleanList (cleanList p.data)) = String.mk (cleanList p.data)
  rw [h]

/-- C9 witness: a concrete path whose first pass has no removable lead. -/
theorem c9_cleanPath_idem_witness :
    cleanPath (cleanPath "webpack://src/app.js") = cleanPath "webpack://src/app.js" :=
  c9_cleanPath_idem "webpack://src/app.js" (by decide) (by decide)

/-- Replacing one known element of a status list shifts the holding count by
the difference of the two elements' contributions. -/
theorem countP_set_of_getElem? (p : WStatus → Bool) :
    ∀ (l : List WStatus) (i : Nat) (a b : WStatus), l[i]? = some a →
      (l.set i b).countP p + (if p a then 1 else 0)
        = l.countP p + (if p b then 1 else 0) := by
  intro l
  induction l with
  | nil => intro i a b h; simp at h
  | cons x t ih =>
      intro i a b h
      cases i with
      | zero =>
          simp only [List.getElem?_cons_zero, Option.some.injEq] at h
          subst h
          simp only [List.set_cons_zero, List.countP_cons]
          omega
      | succ n =>
          simp only [List.getElem?_cons_succ] at h
          have := ih n a b h
          simp only [List.set_cons_succ, List.countP_cons]
          omega

/-- Appending a fresh element preserves the absence of duplicates. -/
theorem nodup_append_singleton {l : List Nat} {w : Nat} (h : l.Nodup) (hw : w ∉ l) :
    (l ++ [w]).Nodup :=
  List.Nodup.append h (List.nodup_singleton w)
    (fun a ha hb => by
      simp only [List.mem_singleton] at hb
      exact hw (hb ▸ ha))

/-- No writer ever holds a slot in the initial state. -/
theorem countHolding_replicate (n : Nat) :
    countHolding (List.replicate n WStatus.idle) = 0 := by
  induction n with
  | zero => rfl
  | succ k ih =>
      simp only [List.replicate, countHolding, List.countP_cons] at ih ⊢
      simp [ih]

/-- The initial state satisfies the semaphore invariant. -/
theorem semInv_init (max n : Nat) : SemInv (initSys max n) := by
  refine ⟨?_, ?_, ?_, ?_, ?_⟩ <;>
    simp [initSys, countHolding_replicate, Int.natCast_nonneg]

/-- Every atomic step preserves the semaphore invariant. -/
theorem semInv_step {s t : SemSys} (hs : SemInv s) (hstep : SemStep s t) : SemInv t := by
  obtain ⟨hcur, hmax, hqs, hnd, hfull⟩ := hs
  cases hstep with
  | acqFast w hw hlt =>
      have hq0 : s.queue = [] := by
        by_contra hne
        have := hfull hne
        omega
      have hcount := countP_set_of_getElem?
        (fun st => decide (st = WStatus.holding)) s.ws w WStatus.idle WStatus.holding hw
      simp at hcount
      refine ⟨?_, ?_, ?_, ?_, ?_⟩
      · show s.current + 1 = (countHolding (s.ws.set w WStatus.holding) : Int)
        simp only [countHolding] at hcur ⊢
        omega
      · show s.current + 1 ≤ (s.max : Int)
        omega
      · intro v hv
        rw [hq0] at hv
        cases hv
      · show s.queue.Nodup
        exact hnd
      · intro hne
        rw [hq0] at hne
        cases hne rfl
  | acqWait w hw hge =>
      have hcount := countP_set_of_getElem?
        (fun st => decide (st = WStatus.holding)) s.ws w WStatus.idle WStatus.queued hw
      simp at hcount
      have hwlt : w < s.ws.length := (List.getElem?_eq_some.mp hw).1
      have hwq : ∀ v ∈ s.queue, v ≠ w := by
        intro v hv he
        have := hqs v hv
        rw [he, hw] at this
        cases this
      refine ⟨?_, ?_, ?_, ?_, ?_⟩
      · show s.current = (countHolding (s.ws.set w WStatus.queued) : Int)
        simp only [countHolding] at hcur ⊢
        omega
      · exact hmax
      · intro v hv
        rcases List.mem_append.mp hv with hv | hv
        · show (s.ws.set w WStatus.queued)[v]? = some WStatus.queued
          rw [List.getElem?_set_ne (fun he => hwq v hv he.symm)]
          exact hqs v hv
        · simp only [List.mem_singleton] at hv
          show (s.ws.set w WStatus.queued)[v]? = some WStatus.queued
          rw [hv]
          simp [List.getElem?_set_self, hwlt]
      · exact nodup_append_singleton hnd (fun hmem => hwq w hmem rfl)
      · intro _
        show s.current = (s.max : Int)
        omega
  | relLast w hw hq =>
      have hcount := countP_set_of_getElem?
        (fun st => decide (st = WStatus.holding)) s.ws w WStatus.holding WStatus.done hw
      simp at hcount
      refine ⟨?_, ?_, ?_, ?_, ?_⟩
      · show s.current - 1 = (countHolding (s.ws.set w WStatus.done) : Int)
        simp only [countHolding] at hcur ⊢
        omega
      · show s.current - 1 ≤ (s.max : Int)
        omega
      · intro v hv
        rw [hq] at hv
        cases hv
      · exact hnd
      · intro hne
        rw [hq] at hne
        cases hne rfl
  | relWake w v q' hw hq =>
      have hv : s.ws[v]? = some WStatus.queued := hqs v (by rw [hq]; exact List.mem_cons_self v q')
      have hvw : v ≠ w := by
        intro he
        rw [he, hw] at hv
        cases hv
      have hvlt : v < s.ws.length := (List.getElem?_eq_some.mp hv).1
      have hcount1 := countP_set_of_getElem?
        (fun st => decide (st = WStatus.holding)) s.ws w WStatus.holding WStatus.done hw
      simp at hcount1
      have hv1 : (s.ws.set w WStatus.done)[v]? = some WStatus.queued := by
        rw [List.getElem?_set_ne (fun he => hvw he.symm)]
        exact hv
      have hcount2 := countP_set_of_getElem?
        (fun st => decide (st = WStatus.holding)) (s.ws.set w WStatus.done) v
        WStatus.queued WStatus.holding hv1
      simp at hcount2
      have hndq : (v :: q').Nodup := hq ▸ hnd
      have hvq : v ∉ q' := (List.nodup_cons.mp hndq).1
      have hfullq : s.current = (s.max : Int) := hfull (by rw [hq]; exact List.cons_ne_nil v q')
      refine ⟨?_, ?_, ?_, ?_, ?_⟩
      · show s.current - 1 + 1
          = (countHolding ((s.ws.set w WStatus.done).set v WStatus.holding) : Int)
        simp only [countHolding] at hcur ⊢
        omega
      · show s.current - 1 + 1 ≤ (s.max : Int)
        omega
      · intro u hu
        have huq : u ∈ s.queue := by rw [hq]; exact List.mem_cons_of_mem v hu
        have hus := hqs u huq
        have huv : u ≠ v := fun he => hvq (he ▸ hu)
        have huw : u ≠ w := by
          intro he
          rw [he, hw] at hus
          cases hus
        show ((s.ws.set w WStatus.done).set v WStatus.holding)[u]? = some WStatus.queued
        rw [List.getElem?_set_ne (fun he => huv he.symm),
          List.getElem?_set_ne (fun he => huw he.symm)]
        exact hus
      · exact (List.nodup_cons.mp hndq).2
      · intro _
        show s.current - 1 + 1 = (s.max : Int)
        omega

/-- Every reachable state satisfies the semaphore invariant. -/
theorem semReach_inv {s : SemSys} (h : SemReach s) : SemInv s := by
  induction h with
  | init max n => exact semInv_init max n
  | step _ hstep ih => exact semInv_step ih hstep

/-- C8: in every reachable state of the admission gate, the counter satisfies
0 <= current <= max and equals the number of writers holding a slot (so it is
changed only by the matched acquire/release transitions of the model, each
writer releasing at most once by construction of the step relation), and
waiters are queued only while the gate is full. -/
theorem c8_semaphore_invariant (s : SemSys) (h : SemReach s) :
    0 ≤ s.current ∧ s.current ≤ (s.max : Int) ∧
    s.current = (countHolding s.ws : Int) ∧
    (s.queue ≠ [] → s.current = (s.max : Int)) := by
  obtain ⟨hcur, hmax, _, _, hfull⟩ := semReach_inv h
  exact ⟨by rw [hcur]; exact Int.natCast_nonneg _, hmax, hcur, hfull⟩

/-- C8 witness: the initial state with the default ceiling and three writers. -/
theorem c8_semaphore_invariant_witness :
    0 ≤ (initSys MAX_CONCURRENT_WRITES 3).current ∧
    (initSys MAX_CONCURRENT_WRITES 3).current
      ≤ ((initSys MAX_CONCURRENT_WRITES 3).max : Int) ∧
    (initSys MAX_CONCURRENT_WRITES 3).current
      = (countHolding (initSys MAX_CONCURRENT_WRITES 3).ws : Int) ∧
    ((initSys MAX_CONCURRENT_WRITES 3).queue ≠ [] →
      (initSys MAX_CONCURRENT_WRITES 3).current
        = ((initSys MAX_CONCURRENT_WRITES 3).max : Int)) :=
  c8_semaphore_invariant (initSys MAX_CONCURRENT_WRITES 3)
    (SemReach.init MAX_CONCURRENT_WRITES 3)

end RobustExtract
